import Mathlib

/-!
Verification of the Novella hybrid recommender core.

The development shallowly embeds the ranking pipeline of `qrecsys.py`
(class `Recommender`, methods `recommend` and `_find_nearest`) and of
`recsys_pipeline.py` (same class and method names).  Vector entries are
modelled as rationals.  `euclidean_distances` in the source returns the
square root of the squared distance; the square root is strictly
monotone on nonnegative reals, so every comparison of Euclidean
distances coincides with the comparison of squared distances, and the
embedding works with squared distances (`sqeuclidean`) throughout.

Exceptions raised by the underlying numpy / scikit-learn / pandas calls
are modelled by the error type `PyErr` and `Except`:
`emptyInput` stands for the `ValueError` that scikit-learn's
`check_array` raises on a matrix with zero samples or zero features,
`dimensionMismatch` for the `ValueError` ("Incompatible dimension")
that `check_pairwise_arrays` raises when the query width differs from
the row width of the reference matrix, `indexError` for numpy row
indexing out of range, `keyError` for a failed `DataFrame.loc` lookup,
and `typeError` for the argument-binding `TypeError` analysed below for
`recsys_pipeline.py`.
-/

/-- Squared Euclidean distance between two vectors, the square of what
`sklearn.metrics.pairwise.euclidean_distances` computes for a pair of
rows.  Comparisons of Euclidean distances and of squared Euclidean
distances agree because the square root is monotone. -/
def sqeuclidean (x y : List ℚ) : ℚ :=
  (List.zipWith (fun a b => (a - b) * (a - b)) x y).sum

/-- Python slice `l[:K]` for an arbitrary integer bound `K`: a
nonnegative `K` keeps the first `K` elements (clamped to the length),
a negative `K` drops the last `-K` elements (empty result when `-K`
reaches the length).  Python raises no error for any integer `K`. -/
def pySliceTo {α : Type} (l : List α) (K : ℤ) : List α :=
  if 0 ≤ K then l.take K.toNat else l.take (l.length - (-K).toNat)

/-- Errors of the library calls made by the source, see the module
doc-string. -/
inductive PyErr where
  | emptyInput : PyErr
  | dimensionMismatch : PyErr
  | indexError : PyErr
  | keyError : PyErr
  | typeError : PyErr
deriving DecidableEq, Repr

/-- Model of `np.argsort` applied to the distance row: the indices
`0 .. d.length - 1` sorted by ascending value.  The source's default
`kind` (quicksort) fixes no tie order; this model uses a stable sort,
and no theorem about the source relies on the tie order it happens to
pick. -/
def argsort (d : List ℚ) : List ℕ :=
  List.insertionSort (fun i j => d.getD i 0 ≤ d.getD j 0) (List.range d.length)

/-- Model of `Recommender._find_nearest` (qrecsys.py lines 174-188; the
body of recsys_pipeline.py lines 134-137 is identical): compute the
distances of the query `x` to every row of `y`
(`euclidean_distances(x, y)` with its input validation), then
`np.argsort(dists)[::-1]` and `sorted_items[0][:K]`.  The distance
matrix `dists` has shape 1 × N and is modelled as the one-row list of
distance rows; `np.argsort` argsorts each row (ascending), and `[::-1]`
reverses the length-one FIRST axis — kept literally in the model as
`List.reverse` of the outer list, where it is a no-op — so row 0 is the
ascending argsort of the distances and the returned indices are
nearest first.  The slice `[:K]` follows Python semantics for any
integer `K`, so a negative `K` raises nothing. -/
def find_nearest (x : List ℚ) (y : List (List ℚ)) (K : ℤ) : Except PyErr (List ℕ) :=
  if x.length = 0 then .error .emptyInput
  else if y.length = 0 then .error .emptyInput
  else if y.any (fun row => row.length == 0) then .error .emptyInput
  else if y.any (fun row => row.length != x.length) then .error .dimensionMismatch
  else
    let dists := [y.map (fun row => sqeuclidean x row)]
    let sorted_items := (dists.map argsort).reverse
    .ok (pySliceTo (sorted_items.getD 0 []) K)

/-- Model of `np.setdiff1d(ar1, ar2, assume_unique=True)`: with
`assume_unique=True` numpy computes `ar1[in1d(ar1, ar2, invert=True)]`,
keeping the elements of `ar1` that are not in `ar2` in their original
order (no sort, unlike the `assume_unique=False` path). -/
def setdiff1d_assume_unique (ar1 ar2 : List ℕ) : List ℕ :=
  ar1.filter (fun i => ¬ ar2.contains i)

/-- Model of the numpy row indexing `y[None, item_id]`: the row at
position `item_id`, or an `IndexError` when the position is out of
range. -/
def getRow (y : List (List ℚ)) (i : ℕ) : Except PyErr (List ℚ) :=
  if h : i < y.length then .ok (y.get ⟨i, h⟩) else .error .indexError

namespace Qrecsys

/-- Model of the seed-expansion loop of `qrecsys.Recommender.recommend`
(lines 155-163): starting from the accumulated list `recs`, for each
seed `item_id` in order fetch the `K_mf * mf_buffer_multiplier` nearest
rows of the collaborative matrix to the seed's own row, drop the ones
already accumulated with `np.setdiff1d(..., assume_unique=True)`, keep
the first `K_mf` survivors and extend `recs` with them. -/
def expand (embeds_mf : List (List ℚ)) (K_mf mf_buffer_multiplier : ℤ) :
    List ℕ → List ℕ → Except PyErr (List ℕ)
  | recs, [] => .ok recs
  | recs, item_id :: rest =>
    match getRow embeds_mf item_id with
    | .error e => .error e
    | .ok row =>
      match find_nearest row embeds_mf (K_mf * mf_buffer_multiplier) with
      | .error e => .error e
      | .ok mf_items =>
        expand embeds_mf K_mf mf_buffer_multiplier
          (recs ++ pySliceTo (setdiff1d_assume_unique mf_items recs) K_mf) rest

/-- Model of steps 1-5 of `qrecsys.Recommender.recommend` (lines
138-166), producing the recommendation index list before the final
title lookup of line 169.  The encoder is external, so the encoded
query vector is an argument. -/
def recommend_indices (encoded_query : List ℚ)
    (embeds_use embeds_mf : List (List ℚ)) (interacted_items : List ℕ)
    (K_use K_mf n_to_recommend use_buffer_multiplier mf_buffer_multiplier : ℤ) :
    Except PyErr (List ℕ) :=
  match find_nearest encoded_query embeds_use (K_use * use_buffer_multiplier) with
  | .error e => .error e
  | .ok item_ids =>
    let item_ids := item_ids.filter (fun i => interacted_items.contains i)
    let item_ids := pySliceTo item_ids K_use
    match expand embeds_mf K_mf mf_buffer_multiplier [] item_ids with
    | .error e => .error e
    | .ok recs => .ok (pySliceTo recs n_to_recommend)

/-- Model of the title lookup of line 169, the list comprehension
evaluating `self.items.loc[idx].item()` left to right: the items table
maps an index to its title, and the first missing index raises a
`KeyError`. -/
def map_titles (items : ℕ → Option String) : List ℕ → Except PyErr (List String)
  | [] => .ok []
  | idx :: rest =>
    match items idx with
    | none => .error .keyError
    | some t =>
      match map_titles items rest with
      | .error e => .error e
      | .ok ts => .ok (t :: ts)

/-- Model of `qrecsys.Recommender.recommend` (lines 111-171): the index
pipeline of steps 1-5 followed by the title lookup of step 6. -/
def recommend (encoded_query : List ℚ)
    (embeds_use embeds_mf : List (List ℚ)) (interacted_items : List ℕ)
    (items : ℕ → Option String)
    (K_use K_mf n_to_recommend use_buffer_multiplier mf_buffer_multiplier : ℤ) :
    Except PyErr (List String) :=
  match recommend_indices encoded_query embeds_use embeds_mf interacted_items
    K_use K_mf n_to_recommend use_buffer_multiplier mf_buffer_multiplier with
  | .error e => .error e
  | .ok recs => map_titles items recs

end Qrecsys

namespace RecsysPipeline

/-- Model of the seed-expansion loop of
`recsys_pipeline.Recommender.recommend` (lines 122-130); the source
text is identical to qrecsys.py lines 155-163. -/
def expand (embeds_mf : List (List ℚ)) (K_mf mf_buffer_multiplier : ℤ) :
    List ℕ → List ℕ → Except PyErr (List ℕ)
  | recs, [] => .ok recs
  | recs, item_id :: rest =>
    match getRow embeds_mf item_id with
    | .error e => .error e
    | .ok row =>
      match find_nearest row embeds_mf (K_mf * mf_buffer_multiplier) with
      | .error e => .error e
      | .ok mf_items =>
        expand embeds_mf K_mf mf_buffer_multiplier
          (recs ++ pySliceTo (setdiff1d_assume_unique mf_items recs) K_mf) rest

/-- Model of the first `self._find_nearest(...)` call of
`recsys_pipeline.Recommender.recommend` (lines 110-113).  In that file
`_find_nearest` is declared as `def _find_nearest(x, y, K)` (line 134)
with no `self` parameter, so the bound-method call binds the
`Recommender` instance to `x`, `encoded_query` to `y` and
`self.embeds_use` to the positional `K`; the keyword argument
`K=K_use*use_buffer_multiplier` then collides with the already-bound
`K` and Python raises `TypeError: _find_nearest() got multiple values
for argument K` at argument binding, before any numeric work. -/
def bound_find_nearest_call : Except PyErr (List ℕ) :=
  .error .typeError

/-- Model of `recsys_pipeline.Recommender.recommend` (lines 79-132):
textually the same pipeline as qrecsys steps 1-5, but its first
nearest-neighbour call is the colliding bound call modelled by
`bound_find_nearest_call`, so the whole method fails on every input. -/
def recommend (encoded_query : List ℚ)
    (embeds_use embeds_mf : List (List ℚ)) (interacted_items : List ℕ)
    (K_use K_mf n_to_recommend use_buffer_multiplier mf_buffer_multiplier : ℤ) :
    Except PyErr (List ℕ) :=
  match bound_find_nearest_call with
  | .error e => .error e
  | .ok item_ids =>
    let item_ids := item_ids.filter (fun i => interacted_items.contains i)
    let item_ids := pySliceTo item_ids K_use
    match expand embeds_mf K_mf mf_buffer_multiplier [] item_ids with
    | .error e => .error e
    | .ok recs => .ok (pySliceTo recs n_to_recommend)

/-- Intent model of `recsys_pipeline.Recommender.recommend`: the same
method with the missing `self` parameter of `_find_nearest` repaired,
so that the first call computes `_find_nearest(encoded_query,
embeds_use, K_use * use_buffer_multiplier)` as the surrounding code and
the method's doc-string intend. -/
def recommend_repaired (encoded_query : List ℚ)
    (embeds_use embeds_mf : List (List ℚ)) (interacted_items : List ℕ)
    (K_use K_mf n_to_recommend use_buffer_multiplier mf_buffer_multiplier : ℤ) :
    Except PyErr (List ℕ) :=
  match find_nearest encoded_query embeds_use (K_use * use_buffer_multiplier) with
  | .error e => .error e
  | .ok item_ids =>
    let item_ids := item_ids.filter (fun i => interacted_items.contains i)
    let item_ids := pySliceTo item_ids K_use
    match expand embeds_mf K_mf mf_buffer_multiplier [] item_ids with
    | .error e => .error e
    | .ok recs => .ok (pySliceTo recs n_to_recommend)

end RecsysPipeline

/-! ### General lemmas about the slice, argsort and finder models -/

theorem pySliceTo_sublist {α : Type} (l : List α) (K : ℤ) :
    List.Sublist (pySliceTo l K) l := by
  unfold pySliceTo; split <;> exact List.take_sublist _ _

theorem pySliceTo_of_nonneg {α : Type} (l : List α) {K : ℤ} (h : 0 ≤ K) :
    pySliceTo l K = l.take K.toNat := if_pos h

theorem pySliceTo_nil {α : Type} (K : ℤ) : pySliceTo ([] : List α) K = [] := by
  unfold pySliceTo; split <;> simp

theorem argsort_length (d : List ℚ) : (argsort d).length = d.length := by
  unfold argsort
  rw [(List.perm_insertionSort _ _).length_eq, List.length_range]

theorem argsort_nodup (d : List ℚ) : (argsort d).Nodup :=
  (List.perm_insertionSort _ _).nodup_iff.mpr (List.nodup_range _)

theorem mem_argsort {d : List ℚ} {i : ℕ} (h : i ∈ argsort d) : i < d.length := by
  have := (List.perm_insertionSort (fun i j => d.getD i 0 ≤ d.getD j 0)
    (List.range d.length)).mem_iff.mp h
  simpa using this

theorem argsort_sorted (d : List ℚ) :
    (argsort d).Sorted (fun i j => d.getD i 0 ≤ d.getD j 0) := by
  haveI : IsTotal ℕ (fun i j => d.getD i 0 ≤ d.getD j 0) := ⟨fun a b => le_total _ _⟩
  haveI : IsTrans ℕ (fun i j => d.getD i 0 ≤ d.getD j 0) := ⟨fun a b c h1 h2 => le_trans h1 h2⟩
  exact List.sorted_insertionSort _ _

theorem find_nearest_ok_inv {x : List ℚ} {y : List (List ℚ)} {K : ℤ} {l : List ℕ}
    (h : find_nearest x y K = .ok l) :
    l = pySliceTo (argsort (y.map (fun row => sqeuclidean x row))) K := by
  unfold find_nearest at h
  split at h
  · exact absurd h (by simp)
  · split at h
    · exact absurd h (by simp)
    · split at h
      · exact absurd h (by simp)
      · split at h
        · exact absurd h (by simp)
        · exact ((Except.ok.injEq _ _).mp h).symm

theorem find_nearest_nodup {x : List ℚ} {y : List (List ℚ)} {K : ℤ} {l : List ℕ}
    (h : find_nearest x y K = .ok l) : l.Nodup := by
  rw [find_nearest_ok_inv h]
  exact ((pySliceTo_sublist _ _).nodup (argsort_nodup _))

theorem find_nearest_mem {x : List ℚ} {y : List (List ℚ)} {K : ℤ} {l : List ℕ}
    (h : find_nearest x y K = .ok l) : ∀ i ∈ l, i < y.length := by
  intro i hi
  rw [find_nearest_ok_inv h] at hi
  have := mem_argsort ((pySliceTo_sublist _ _).mem hi)
  simpa using this

theorem find_nearest_eq_ok {x : List ℚ} {y : List (List ℚ)}
    (hx : x ≠ []) (hy : y ≠ []) (hw : ∀ row ∈ y, row.length = x.length) (K : ℤ) :
    find_nearest x y K =
      .ok (pySliceTo (argsort (y.map (fun row => sqeuclidean x row))) K) := by
  have hx0 : x.length ≠ 0 := by simpa using hx
  have hy0 : y.length ≠ 0 := by simpa using hy
  have h3 : ¬ ((y.any fun row => row.length == 0) = true) := by
    simp only [List.any_eq_true, beq_iff_eq, not_exists, not_and]
    intro row hrow
    rw [hw row hrow]
    exact hx0
  have h4 : ¬ ((y.any fun row => row.length != x.length) = true) := by
    simp only [List.any_eq_true, bne_iff_ne, ne_eq, not_exists, not_and, not_not]
    intro row hrow
    simp [hw row hrow]
  unfold find_nearest
  rw [if_neg hx0, if_neg hy0, if_neg h3, if_neg h4]
  rfl

theorem contains_iff_mem {l : List ℕ} {i : ℕ} : l.contains i = true ↔ i ∈ l := by
  simp [List.contains]

theorem setdiff1d_sublist (ar1 ar2 : List ℕ) :
    List.Sublist (setdiff1d_assume_unique ar1 ar2) ar1 :=
  List.filter_sublist ar1

theorem mem_setdiff1d {ar1 ar2 : List ℕ} {i : ℕ}
    (h : i ∈ setdiff1d_assume_unique ar1 ar2) : i ∈ ar1 ∧ i ∉ ar2 := by
  unfold setdiff1d_assume_unique at h
  rw [List.mem_filter] at h
  refine ⟨h.1, ?_⟩
  have := h.2
  simpa using this

theorem qrecsys_expand_invariant (embeds_mf : List (List ℚ)) (K_mf mb : ℤ) :
    ∀ (ids : List ℕ) (recs₀ r : List ℕ),
      Qrecsys.expand embeds_mf K_mf mb recs₀ ids = .ok r →
      (∃ t, r = recs₀ ++ t) ∧ (recs₀.Nodup → r.Nodup) ∧
      ((∀ i ∈ recs₀, i < embeds_mf.length) → ∀ i ∈ r, i < embeds_mf.length)
  | [], recs₀, r, h => by
    unfold Qrecsys.expand at h
    have hr : recs₀ = r := (Except.ok.injEq _ _).mp h
    subst hr
    exact ⟨⟨[], by simp⟩, fun hn => hn, fun hb => hb⟩
  | item_id :: rest, recs₀, r, h => by
    unfold Qrecsys.expand at h
    split at h
    · exact absurd h (by simp)
    · split at h
      · exact absurd h (by simp)
      · rename_i row hrow mf_items hmf
        have ih := qrecsys_expand_invariant embeds_mf K_mf mb rest
          (recs₀ ++ pySliceTo (setdiff1d_assume_unique mf_items recs₀) K_mf) r h
        obtain ⟨⟨t, ht⟩, hnd, hbd⟩ := ih
        set npart := pySliceTo (setdiff1d_assume_unique mf_items recs₀) K_mf with hnp
        have hnp_mem : ∀ i ∈ npart, i ∈ mf_items ∧ i ∉ recs₀ := fun i hi =>
          mem_setdiff1d ((pySliceTo_sublist _ _).mem hi)
        refine ⟨⟨npart ++ t, by rw [ht, List.append_assoc]⟩, ?_, ?_⟩
        · intro hn0
          apply hnd
          apply List.Nodup.append hn0
          · exact (pySliceTo_sublist _ _).nodup
              ((setdiff1d_sublist _ _).nodup (find_nearest_nodup hmf))
          · intro a ha hb
            exact (hnp_mem a hb).2 ha
        · intro hb0
          apply hbd
          intro i hi
          rcases List.mem_append.mp hi with hi | hi
          · exact hb0 i hi
          · exact find_nearest_mem hmf i (hnp_mem i hi).1

/-- Claim C1: for every query vector and non-empty reference matrix,
the index sequence returned by `_find_nearest` is ordered by ascending
Euclidean distance to the query, nearest first: at any two returned
positions `p1 < p2`, the (squared, equivalently plain) Euclidean
distance of the row indexed at `p1` is at most that of the row indexed
at `p2`. -/
theorem find_nearest_nearest_first {x : List ℚ} {y : List (List ℚ)} {K : ℤ} {l : List ℕ}
    (h : find_nearest x y K = .ok l) :
    ∀ p1 p2 : ℕ, p1 < p2 → p2 < l.length →
      sqeuclidean x (y.getD (l.getD p1 0) []) ≤ sqeuclidean x (y.getD (l.getD p2 0) []) := by
  intro p1 p2 hlt hp2
  have hp1 : p1 < l.length := lt_trans hlt hp2
  set d := y.map (fun row => sqeuclidean x row) with hd
  have hsub : List.Sublist l (argsort d) := by
    rw [find_nearest_ok_inv h]; exact pySliceTo_sublist _ _
  have hsorted : l.Sorted (fun i j => d.getD i 0 ≤ d.getD j 0) :=
    List.Pairwise.sublist hsub (argsort_sorted d)
  have hrel := List.pairwise_iff_get.mp hsorted ⟨p1, hp1⟩ ⟨p2, hp2⟩ hlt
  have hm : ∀ p : ℕ, p < l.length →
      d.getD (l.getD p 0) 0 = sqeuclidean x (y.getD (l.getD p 0) []) := by
    intro p hp
    have hmem : l.getD p 0 ∈ l := by
      rw [List.getD_eq_getElem l 0 hp]; exact List.getElem_mem _
    have hlen : l.getD p 0 < y.length := find_nearest_mem h _ hmem
    have hlen' : l.getD p 0 < d.length := by simpa [hd] using hlen
    rw [List.getD_eq_getElem d 0 hlen', List.getD_eq_getElem y [] hlen]
    simp [hd]
  have e1 := hm p1 hp1
  have e2 := hm p2 hp2
  rw [List.get_eq_getElem, List.get_eq_getElem] at hrel
  rw [← List.getD_eq_getElem l 0 hp1, ← List.getD_eq_getElem l 0 hp2] at hrel
  rw [e1, e2] at hrel
  exact hrel

/-- Witness for C1 at a concrete input: the finder applied to query
`(0)` over rows `(3), (1), (2)` with `K = 3` returns `1, 2, 0`, and the
row at position 0 is at most as far as the row at position 2. -/
theorem find_nearest_nearest_first_witness :
    sqeuclidean [0] ([[3],[1],[2]].getD (([1,2,0] : List ℕ).getD 0 0) []) ≤
      sqeuclidean [0] ([[3],[1],[2]].getD (([1,2,0] : List ℕ).getD 2 0) []) :=
  @find_nearest_nearest_first [0] [[3],[1],[2]] 3 [1,2,0]
    (by norm_num [find_nearest, argsort, sqeuclidean, pySliceTo,
      List.insertionSort, List.orderedInsert, List.range_succ]) 0 2 (by decide) (by decide)

/-- Claim C2: for every query vector, every non-empty reference matrix
of matching width and every non-negative integer `K`, `_find_nearest`
raises nothing and returns exactly `min K N` indices, each below `N`,
with no duplicates; in particular a `K` exceeding `N` is clamped to
`N`. -/
theorem find_nearest_count_clamp {x : List ℚ} {y : List (List ℚ)} {K : ℤ}
    (hx : x ≠ []) (hy : y ≠ []) (hw : ∀ row ∈ y, row.length = x.length) (hK : 0 ≤ K) :
    ∃ l, find_nearest x y K = .ok l ∧ l.length = min K.toNat y.length ∧
      l.Nodup ∧ ∀ i ∈ l, i < y.length := by
  have hok := find_nearest_eq_ok hx hy hw K
  refine ⟨_, hok, ?_, find_nearest_nodup hok, find_nearest_mem hok⟩
  rw [pySliceTo_of_nonneg _ hK, List.length_take, argsort_length, List.length_map]

/-- Witness for C2 at a concrete input: `K = 5` over a 3-row matrix is
clamped so that exactly `min 5 3 = 3` distinct in-range indices come
back. -/
theorem find_nearest_count_clamp_witness :
    ∃ l, find_nearest [0] [[3],[1],[2]] 5 = .ok l ∧
      l.length = min (5 : ℤ).toNat ([[3],[1],[2]] : List (List ℚ)).length ∧
      l.Nodup ∧ ∀ i ∈ l, i < ([[3],[1],[2]] : List (List ℚ)).length :=
  @find_nearest_count_clamp [0] [[3],[1],[2]] 5
    (by decide) (by decide) (by decide) (by decide)

/-- Counterexample to claim C3 as stated: with the well-formed query
`(0)` and rows `(1), (2), (3)`, the call with `K = -1` raises no error
at all, although the claim requires an error exactly when `K < 0`.
Python slicing with a negative bound silently drops the last element,
and the finder returns the first two sorted indices. -/
theorem find_nearest_negative_K_no_error :
    find_nearest [0] [[1],[2],[3]] (-1) = .ok [0,1] ∧
      ∀ e, find_nearest [0] [[1],[2],[3]] (-1) ≠ .error e := by
  have hval : find_nearest [0] [[1],[2],[3]] (-1) = .ok [0,1] := by
    norm_num [find_nearest, argsort, sqeuclidean, pySliceTo,
      List.insertionSort, List.orderedInsert, List.range_succ]
  refine ⟨hval, fun e he => ?_⟩
  rw [hval] at he
  exact absurd he (by simp)

/-- Claim C3 as amended: `_find_nearest` raises an error exactly when a
matrix is empty or the widths mismatch — the scikit-learn `ValueError`
conditions, modelled by `emptyInput` and `dimensionMismatch`, the
code's counterpart of the spec's `InvalidInput` — while a negative `K`
raises nothing (Python slice semantics); the model is a pure function,
so no argument is mutated. -/
theorem find_nearest_error_characterization (x : List ℚ) (y : List (List ℚ)) (K : ℤ) :
    ((∃ e, find_nearest x y K = .error e) ↔
      (x = [] ∨ y = [] ∨ ∃ row ∈ y, row.length ≠ x.length)) ∧
    (∀ e, find_nearest x y K = .error e →
      e = PyErr.emptyInput ∨ e = PyErr.dimensionMismatch) := by
  constructor
  · constructor
    · rintro ⟨e, he⟩
      by_contra hc
      push_neg at hc
      obtain ⟨hx, hy, hrow⟩ := hc
      rw [find_nearest_eq_ok hx hy hrow K] at he
      exact absurd he (by simp)
    · intro hcond
      unfold find_nearest
      by_cases h1 : x.length = 0
      · rw [if_pos h1]; exact ⟨_, rfl⟩
      · rw [if_neg h1]
        by_cases h2 : y.length = 0
        · rw [if_pos h2]; exact ⟨_, rfl⟩
        · rw [if_neg h2]
          by_cases h3 : y.any (fun row => row.length == 0) = true
          · rw [if_pos h3]; exact ⟨_, rfl⟩
          · rw [if_neg h3]
            have h4 : y.any (fun row => row.length != x.length) = true := by
              rcases hcond with hx | hy | ⟨row, hrow, hne⟩
              · exact absurd (by simp [hx]) h1
              · exact absurd (by simp [hy]) h2
              · simp only [List.any_eq_true, bne_iff_ne]; exact ⟨row, hrow, hne⟩
            rw [if_pos h4]; exact ⟨_, rfl⟩
  · intro e he
    unfold find_nearest at he
    split at he
    · exact Or.inl (((Except.error.injEq _ _).mp he)).symm
    · split at he
      · exact Or.inl (((Except.error.injEq _ _).mp he)).symm
      · split at he
        · exact Or.inl (((Except.error.injEq _ _).mp he)).symm
        · split at he
          · exact Or.inr (((Except.error.injEq _ _).mp he)).symm
          · exact absurd he (by simp)

theorem pySliceTo_append {α : Type} (l : List α) (K : ℤ) :
    ∃ t, l = pySliceTo l K ++ t := by
  unfold pySliceTo
  split <;> exact ⟨_, (List.take_append_drop _ _).symm⟩

theorem mem_setdiff1d_iff {ar1 ar2 : List ℕ} {i : ℕ} :
    i ∈ setdiff1d_assume_unique ar1 ar2 ↔ i ∈ ar1 ∧ i ∉ ar2 := by
  constructor
  · exact mem_setdiff1d
  · rintro ⟨h1, h2⟩
    unfold setdiff1d_assume_unique
    rw [List.mem_filter]
    refine ⟨h1, ?_⟩
    simpa using h2

theorem qrecsys_recommend_indices_ok_inv {q : List ℚ} {eu em : List (List ℚ)}
    {ii : List ℕ} {Ku Km n ub mb : ℤ} {l : List ℕ}
    (h : Qrecsys.recommend_indices q eu em ii Ku Km n ub mb = .ok l) :
    ∃ item_ids recs,
      find_nearest q eu (Ku * ub) = .ok item_ids ∧
      Qrecsys.expand em Km mb []
        (pySliceTo (item_ids.filter (fun i => ii.contains i)) Ku) = .ok recs ∧
      l = pySliceTo recs n := by
  unfold Qrecsys.recommend_indices at h
  split at h
  · exact absurd h (by simp)
  · rename_i item_ids hfn
    have h' : (match Qrecsys.expand em Km mb []
        (pySliceTo (item_ids.filter (fun i => ii.contains i)) Ku) with
      | Except.error e => Except.error e
      | Except.ok recs => Except.ok (pySliceTo recs n)) = Except.ok l := h
    split at h'
    · exact absurd h' (by simp)
    · rename_i recs hexp
      exact ⟨item_ids, recs, hfn, hexp, (((Except.ok.injEq _ _).mp h')).symm⟩

theorem qrecsys_expand_total {em : List (List ℚ)} {Km mb : ℤ} {w : ℕ}
    (hem : em ≠ []) (hmw : ∀ row ∈ em, row.length = w) (hw0 : 0 < w) :
    ∀ (ids : List ℕ) (recs : List ℕ), (∀ i ∈ ids, i < em.length) →
      ∃ r, Qrecsys.expand em Km mb recs ids = .ok r
  | [], recs, _ => ⟨recs, rfl⟩
  | item_id :: rest, recs, hb => by
    have hid : item_id < em.length := hb item_id (List.mem_cons_self _ _)
    have hrow : getRow em item_id = .ok (em.get ⟨item_id, hid⟩) := dif_pos hid
    have hrowmem : em.get ⟨item_id, hid⟩ ∈ em := List.get_mem _ _ _
    have hrowne : em.get ⟨item_id, hid⟩ ≠ [] := by
      intro hcon
      have := hmw _ hrowmem
      rw [hcon] at this
      simp at this
      omega
    have hmf := find_nearest_eq_ok hrowne hem
      (fun r hr => by rw [hmw r hr, hmw _ hrowmem]) (Km * mb)
    obtain ⟨r, hr⟩ := qrecsys_expand_total hem hmw hw0 rest
      (recs ++ pySliceTo (setdiff1d_assume_unique
        (pySliceTo (argsort (em.map (fun row =>
          sqeuclidean (em.get ⟨item_id, hid⟩) row))) (Km * mb)) recs) Km)
      (fun i hi => hb i (List.mem_cons_of_mem _ hi))
    refine ⟨r, ?_⟩
    simp only [Qrecsys.expand, hrow, hmf]
    exact hr

theorem expand_eq (embeds_mf : List (List ℚ)) (K_mf mb : ℤ) :
    ∀ (ids recs : List ℕ),
      RecsysPipeline.expand embeds_mf K_mf mb recs ids =
        Qrecsys.expand embeds_mf K_mf mb recs ids
  | [], _ => rfl
  | item_id :: rest, recs => by
    unfold RecsysPipeline.expand Qrecsys.expand
    cases getRow embeds_mf item_id with
    | error e => rfl
    | ok row =>
      dsimp only
      cases find_nearest row embeds_mf (K_mf * mb) with
      | error e => rfl
      | ok mf_items => exact expand_eq embeds_mf K_mf mb rest _

/-- Claim C5: whenever `recommend` returns a recommendation index list
(the list of step 5; step 6 maps it elementwise to titles), that
list has length at most `n_to_recommend`, holds no duplicate index, and
is a prefix of the list accumulated by the generation loop in insertion
order — it is never re-sorted after accumulation. -/
theorem recommend_output_bounded_nodup_order {q : List ℚ} {eu em : List (List ℚ)}
    {ii : List ℕ} {Ku Km n ub mb : ℤ} {l : List ℕ}
    (hn : 0 < n)
    (hok : Qrecsys.recommend_indices q eu em ii Ku Km n ub mb = .ok l) :
    l.length ≤ n.toNat ∧ l.Nodup ∧
      ∃ seeds recs, Qrecsys.expand em Km mb [] seeds = .ok recs ∧
        l = pySliceTo recs n ∧ ∃ t, recs = l ++ t := by
  obtain ⟨item_ids, recs, hfn, hexp, hl⟩ := qrecsys_recommend_indices_ok_inv hok
  obtain ⟨⟨t0, ht0⟩, hnd, _⟩ := qrecsys_expand_invariant em Km mb _ [] recs hexp
  have hrecs_nodup : recs.Nodup := hnd List.nodup_nil
  refine ⟨?_, ?_, _, recs, hexp, hl, ?_⟩
  · rw [hl, pySliceTo_of_nonneg _ (le_of_lt hn), List.length_take]
    exact min_le_left _ _
  · rw [hl]
    exact (pySliceTo_sublist _ _).nodup hrecs_nodup
  · rw [hl]
    exact pySliceTo_append recs n

/-- Witness for C5 at a concrete input: with one seed surviving, the
pipeline returns the two collaborative neighbours of the seed, bounded
by `n_to_recommend = 5`, duplicate-free and in generation order. -/
theorem recommend_output_bounded_nodup_order_witness :
    (([0, 1] : List ℕ).length ≤ (5 : ℤ).toNat ∧ ([0, 1] : List ℕ).Nodup ∧
      ∃ seeds recs, Qrecsys.expand [[0],[1],[2]] 2 10 [] seeds = .ok recs ∧
        ([0, 1] : List ℕ) = pySliceTo recs 5 ∧ ∃ t, recs = [0, 1] ++ t) :=
  @recommend_output_bounded_nodup_order [0] [[0],[1],[2]] [[0],[1],[2]] [0,1,2]
    1 2 5 10 10 [0,1]
    (by decide)
    (by
      norm_num [Qrecsys.recommend_indices, Qrecsys.expand, getRow, find_nearest,
        argsort, sqeuclidean, pySliceTo, setdiff1d_assume_unique,
        List.insertionSort, List.orderedInsert, List.range_succ]
      decide)

/-- Claim C6: with an empty interacted-item set, the seed list left
after the interaction filter and truncation is empty, so the expansion
loop never runs and `recommend` returns the empty list without any
error. -/
theorem recommend_empty_interactions {q : List ℚ} {eu em : List (List ℚ)}
    (items : ℕ → Option String) {Ku Km n ub mb : ℤ}
    (hx : q ≠ []) (hy : eu ≠ []) (hw : ∀ row ∈ eu, row.length = q.length) :
    Qrecsys.recommend q eu em [] items Ku Km n ub mb = .ok [] := by
  have hfn := find_nearest_eq_ok hx hy hw (Ku * ub)
  have hfilt : ∀ ids : List ℕ, ids.filter (fun i => ([] : List ℕ).contains i) = [] := by
    intro ids
    simp [List.contains]
  unfold Qrecsys.recommend Qrecsys.recommend_indices
  rw [hfn]
  dsimp only
  rw [hfilt, pySliceTo_nil]
  dsimp only [Qrecsys.expand]
  rw [pySliceTo_nil]
  rfl

/-- Witness for C6 at a concrete input: a one-item catalogue and an
empty interaction set yield the empty recommendation list. -/
theorem recommend_empty_interactions_witness :
    Qrecsys.recommend [0] [[1]] [[1]] [] (fun _ => some "a") 2 5 5 10 10 = .ok [] :=
  @recommend_empty_interactions [0] [[1]] [[1]] (fun _ => some "a") 2 5 5 10 10
    (by decide) (by decide) (by decide)

/-- Claim C7: one iteration of the per-seed expansion loop appends to
the accumulated list exactly the first `K_mf` of the fetched neighbour
indices that survive the set-difference against the accumulated list;
the survivors form a subsequence of the fetched nearest-first sequence
(their relative order is preserved, nothing is re-sorted), and an index
survives precisely when it was fetched and not yet accumulated. -/
theorem expand_step_filter_order {em : List (List ℚ)} {Km mb : ℤ}
    {recs : List ℕ} {item_id : ℕ} {rest : List ℕ} {row : List ℚ} {mf_items : List ℕ}
    (hrow : getRow em item_id = .ok row)
    (hmf : find_nearest row em (Km * mb) = .ok mf_items)
    (hK : 0 ≤ Km) :
    Qrecsys.expand em Km mb recs (item_id :: rest) =
      Qrecsys.expand em Km mb
        (recs ++ (setdiff1d_assume_unique mf_items recs).take Km.toNat) rest ∧
    List.Sublist (setdiff1d_assume_unique mf_items recs) mf_items ∧
    ∀ i, i ∈ setdiff1d_assume_unique mf_items recs ↔ (i ∈ mf_items ∧ i ∉ recs) := by
  refine ⟨?_, setdiff1d_sublist _ _, fun i => mem_setdiff1d_iff⟩
  simp only [Qrecsys.expand, hrow, hmf]
  rw [pySliceTo_of_nonneg _ hK]

/-- Witness for C7 at a concrete input: expanding the seed 0 over a
two-row collaborative matrix with `K_mf = 1` appends the single
surviving neighbour. -/
theorem expand_step_filter_order_witness :
    (Qrecsys.expand [[0],[1]] 1 2 [] [0] =
      Qrecsys.expand [[0],[1]] 1 2
        ([] ++ (setdiff1d_assume_unique [0,1] []).take (1 : ℤ).toNat) [] ∧
    List.Sublist (setdiff1d_assume_unique [0,1] []) [0,1] ∧
    ∀ i, i ∈ setdiff1d_assume_unique [0,1] [] ↔ (i ∈ ([0,1] : List ℕ) ∧ i ∉ ([] : List ℕ))) :=
  @expand_step_filter_order [[0],[1]] 1 2 [] 0 [] [0] [0,1]
    (by norm_num [getRow])
    (by norm_num [find_nearest, argsort, sqeuclidean, pySliceTo,
      List.insertionSort, List.orderedInsert, List.range_succ])
    (by decide)

/-- Counterexample to claim C8 as stated: `recommend` contains no
validation of its configuration options, so `K_use = 0` — a
non-positive value — raises no `InvalidConfiguration` error; the call
returns a list (here the empty one). -/
theorem recommend_zero_config_returns_list :
    Qrecsys.recommend [0] [[0]] [[0]] [0] (fun _ => some "a") 0 5 5 10 10 = .ok [] := by
  norm_num [Qrecsys.recommend, Qrecsys.recommend_indices, Qrecsys.expand, getRow,
    Qrecsys.map_titles, find_nearest, argsort, sqeuclidean, pySliceTo, setdiff1d_assume_unique,
    List.insertionSort, List.orderedInsert, List.range_succ]

/-- Claim C8 as amended: `recommend` never validates its configuration
options; for every integer configuration, positive or not, over
well-formed artifacts the index pipeline returns a list (shorter or
empty under Python slice semantics) rather than failing. -/
theorem recommend_total_for_all_configs {q : List ℚ} {eu em : List (List ℚ)}
    {ii : List ℕ} {w : ℕ}
    (hx : q ≠ []) (hyu : eu ≠ []) (hwu : ∀ row ∈ eu, row.length = q.length)
    (hlen : eu.length ≤ em.length)
    (hmw : ∀ row ∈ em, row.length = w) (hw0 : 0 < w) :
    ∀ Ku Km n ub mb : ℤ,
      ∃ l, Qrecsys.recommend_indices q eu em ii Ku Km n ub mb = .ok l := by
  intro Ku Km n ub mb
  have hem : em ≠ [] := by
    intro hcon
    rw [hcon] at hlen
    simp at hlen
    exact hyu hlen
  have hfn := find_nearest_eq_ok hx hyu hwu (Ku * ub)
  set item_ids := pySliceTo (argsort (eu.map (fun row => sqeuclidean q row))) (Ku * ub)
    with hitems
  have hbound : ∀ i ∈ pySliceTo (item_ids.filter (fun i => ii.contains i)) Ku,
      i < em.length := by
    intro i hi
    have h1 : i ∈ item_ids :=
      (List.filter_sublist _).mem ((pySliceTo_sublist _ _).mem hi)
    have h2 : i < eu.length := find_nearest_mem hfn i h1
    omega
  obtain ⟨r, hr⟩ := @qrecsys_expand_total em Km mb w hem hmw hw0
    (pySliceTo (item_ids.filter (fun i => ii.contains i)) Ku) [] hbound
  refine ⟨pySliceTo r n, ?_⟩
  unfold Qrecsys.recommend_indices
  rw [hfn]
  dsimp only
  rw [hr]

/-- Witness for C8 at a concrete input: with every configuration
option zero or negative, the pipeline still returns a list. -/
theorem recommend_total_for_all_configs_witness :
    ∃ l, Qrecsys.recommend_indices [0] [[0]] [[0]] [0] (-1) (-2) (-3) 0 (-7) = .ok l :=
  @recommend_total_for_all_configs [0] [[0]] [[0]] [0] 1
    (by decide) (by decide) (by decide) (by decide) (by decide) (by decide)
    (-1) (-2) (-3) 0 (-7)

/-- Claim C9: whenever the encoded query vector's length differs from
the common row width of the non-empty semantic matrix, `recommend`
fails with the dimension-mismatch error (scikit-learn's "Incompatible
dimension" `ValueError`, the code's counterpart of the spec's
`DimensionMismatch`); it returns no list, so nothing is silently
truncated or padded. -/
theorem recommend_dimension_mismatch {q : List ℚ} {eu em : List (List ℚ)}
    {ii : List ℕ} (items : ℕ → Option String) {w : ℕ} {Ku Km n ub mb : ℤ}
    (hx : q ≠ []) (hyu : eu ≠ []) (hwu : ∀ row ∈ eu, row.length = w)
    (hw0 : 0 < w) (hne : w ≠ q.length) :
    Qrecsys.recommend q eu em ii items Ku Km n ub mb = .error .dimensionMismatch := by
  have hfn : find_nearest q eu (Ku * ub) = .error .dimensionMismatch := by
    unfold find_nearest
    rw [if_neg (by simpa using hx), if_neg (by simpa using hyu), if_neg, if_pos]
    · obtain ⟨r0, hr0⟩ := List.exists_mem_of_ne_nil eu hyu
      simp only [List.any_eq_true, bne_iff_ne]
      exact ⟨r0, hr0, by rw [hwu r0 hr0]; exact fun hcon => hne hcon⟩
    · simp only [List.any_eq_true, beq_iff_eq, not_exists, not_and]
      intro row hrow
      rw [hwu row hrow]
      omega
  unfold Qrecsys.recommend Qrecsys.recommend_indices
  rw [hfn]

/-- Witness for C9 at a concrete input: a width-2 query against a
width-1 semantic matrix fails with the dimension-mismatch error. -/
theorem recommend_dimension_mismatch_witness :
    Qrecsys.recommend [0, 0] [[1]] [[1]] [0] (fun _ => some "a") 2 5 5 10 10 =
      .error .dimensionMismatch :=
  @recommend_dimension_mismatch [0, 0] [[1]] [[1]] [0] (fun _ => some "a") 1 2 5 5 10 10
    (by decide) (by decide) (by decide) (by decide) (by decide)

/-- Claim C10, settled against the code as written: the claim states
that `recsys_pipeline.Recommender.recommend` returns the same index
list as the qrecsys pipeline, but in `recsys_pipeline.py` the method
`_find_nearest` lacks its `self` parameter, so every call of that
file's `recommend` dies in a `TypeError` at the first bound call and
never returns a list (first conjunct, for all inputs).  The claim
matches the evident intent: with the missing `self` repaired, the two
pipelines agree on every input (second conjunct). -/
theorem pipeline_recommend_type_error_and_repaired_equivalence :
    (∀ (q : List ℚ) (eu em : List (List ℚ)) (ii : List ℕ) (Ku Km n ub mb : ℤ),
      RecsysPipeline.recommend q eu em ii Ku Km n ub mb = .error .typeError) ∧
    (∀ (q : List ℚ) (eu em : List (List ℚ)) (ii : List ℕ) (Ku Km n ub mb : ℤ),
      RecsysPipeline.recommend_repaired q eu em ii Ku Km n ub mb =
        Qrecsys.recommend_indices q eu em ii Ku Km n ub mb) := by
  constructor
  · intro q eu em ii Ku Km n ub mb
    rfl
  · intro q eu em ii Ku Km n ub mb
    unfold RecsysPipeline.recommend_repaired Qrecsys.recommend_indices
    cases find_nearest q eu (Ku * ub) with
    | error e => rfl
    | ok item_ids =>
      dsimp only
      rw [expand_eq]
